import Mathlib

/-!
# The KubeDB extension client factory (`clientset/extensions.go`)

A shallow embedding of `NewForConfig`, `New`, `setExtensionsDefaults` and
`ExtensionClient.RESTClient`.

Go pointers are indices into typed cell stores kept in `World`; the nil
pointer is `none`.  A Go pair `(value, error)` is a Lean pair whose second
component is `none` for a nil error.  A run-time panic (nil dereference) is
the outer `none` of a result.

The collaborators that live outside the file (`schema.ParseGroupVersion`,
`api.Registry`, `rest.DefaultKubernetesUserAgent`, `rest.RESTClientFor`, the
package variable `ExtendedCodec`) are fields of `Env`; every theorem is
universally quantified over them.  `rest.RESTClientFor` is handed the whole
store and the pointer it receives, and the calls made to it are recorded in
`World.restClientForCalls`.
-/

namespace Clientset

/-! ## Data model -/

/-- A Go `error` value, identified by its message. -/
structure GoError where
  msg : String
deriving DecidableEq, Repr

/-- The error built by `fmt.Errorf` from a format string without verbs. -/
def Errorf (format : String) : GoError := ⟨format⟩

/-- The pair `schema.GroupVersion`. -/
structure GroupVersion where
  Group : String
  Version : String
deriving DecidableEq, Repr

/-- The part of `apimachinery.GroupMeta` the file reads: its `GroupVersion` field. -/
structure GroupMeta where
  GroupVersion : GroupVersion
deriving DecidableEq, Repr

/-- The value held by the package variable `ExtendedCodec`, up to identity. -/
structure Codec where
  ident : Nat
deriving DecidableEq, Repr

/-- The struct `DirectCodecFactory`, with its one field `extendedCodec`. -/
structure DirectCodecFactory where
  extendedCodec : Codec
deriving DecidableEq, Repr

/-- A non-nil value of the interface `runtime.NegotiatedSerializer`: either a
`DirectCodecFactory` or some other implementation, told apart by a tag. -/
inductive NegotiatedSerializer where
  | directCodecFactory (f : DirectCodecFactory)
  | other (tag : Nat)
deriving DecidableEq, Repr

/-- A Go pointer: `none` is nil, `some i` is the address of cell `i`. -/
abbrev Ptr := Option Nat

/-- The struct `rest.Config`: the fields the file reads or writes, together
with the host and a credential standing for the fields it never touches. -/
structure Config where
  Host : String
  BearerToken : String
  APIPath : String
  UserAgent : String
  GroupVersion : Ptr
  NegotiatedSerializer : Option NegotiatedSerializer
deriving DecidableEq, Repr

/-- A non-nil transport handle (the `*rest.RESTClient` behind `rest.Interface`). -/
structure Handle where
  ident : Nat
deriving DecidableEq, Repr

/-- The struct `ExtensionClient`; `restClient` is an interface value, `none` when nil. -/
structure ExtensionClient where
  restClient : Option Handle
deriving DecidableEq, Repr

/-- The mutable state: the cells of type `rest.Config`, the cells of type
`schema.GroupVersion`, and the arguments of the calls made so far to
`rest.RESTClientFor`. -/
structure World where
  configs : List Config
  groupVersions : List GroupVersion
  restClientForCalls : List Ptr
deriving DecidableEq, Repr

/-- The collaborators of the file. -/
structure Env where
  /-- The function `schema.ParseGroupVersion`. -/
  ParseGroupVersion : String → GroupVersion × Option GoError
  /-- The method `api.Registry.IsEnabledVersion`. -/
  IsEnabledVersion : GroupVersion → Bool
  /-- The method `api.Registry.Group`, returning a `*GroupMeta` and an error. -/
  Group : String → Option GroupMeta × Option GoError
  /-- The result of `rest.DefaultKubernetesUserAgent()`. -/
  DefaultKubernetesUserAgent : String
  /-- The package variable `ExtendedCodec`. -/
  ExtendedCodec : Codec
  /-- The function `rest.RESTClientFor`, reading the store through the pointer it is given. -/
  RESTClientFor : World → Ptr → Option Handle × Option GoError

/-! ## Store operations -/

/-- Dereference a `*rest.Config`; `none` is the nil-dereference panic. -/
def loadConfig (w : World) (p : Ptr) : Option Config :=
  match p with
  | none => none
  | some i => w.configs[i]?

/-- Assign through a `*rest.Config`; `none` is the nil-dereference panic. -/
def storeConfig (w : World) (p : Ptr) (c : Config) : Option World :=
  match p with
  | none => none
  | some i =>
    if i < w.configs.length then some { w with configs := w.configs.set i c } else none

/-- A fresh `rest.Config` variable holding `c`, and its address. -/
def allocConfig (w : World) (c : Config) : Ptr × World :=
  (some w.configs.length, { w with configs := w.configs ++ [c] })

/-- Dereference a `*schema.GroupVersion`. -/
def loadGroupVersion (w : World) (p : Ptr) : Option GroupVersion :=
  match p with
  | none => none
  | some i => w.groupVersions[i]?

/-- A fresh `schema.GroupVersion` variable holding `g`, and its address. -/
def allocGroupVersion (w : World) (g : GroupVersion) : Ptr × World :=
  (some w.groupVersions.length, { w with groupVersions := w.groupVersions ++ [g] })

/-! ## The program -/

/-- The constant `defaultAPIPath`. -/
def defaultAPIPath : String := "/apis"

/-- The condition of the `if` at line 95:
`config.GroupVersion == nil || config.GroupVersion.Group != "kubedb.com"`. -/
def groupVersionMissing (w : World) (c : Config) : Option Bool :=
  match c.GroupVersion with
  | none => some true
  | some q =>
    match loadGroupVersion w (some q) with
    | none => none
    | some gv => some (gv.Group != "kubedb.com")

/-- The function `setExtensionsDefaults`.  The result is the store after the
call and the returned error; `none` is a panic. -/
def setExtensionsDefaults (env : Env) (config : Ptr) (w : World) :
    Option (World × Option GoError) :=
  match env.ParseGroupVersion "kubedb.com/v1alpha1" with
  | (_, some err) => some (w, some err)
  | (gv, none) =>
    -- if kubedb.com/v1alpha1 is not enabled, return an error
    if !env.IsEnabledVersion gv then
      some (w, some (Errorf "kubedb.com/v1alpha1 is not enabled"))
    else
      -- config.APIPath = defaultAPIPath
      match loadConfig w config with
      | none => none
      | some c0 =>
      match storeConfig w config { c0 with APIPath := defaultAPIPath } with
      | none => none
      | some w1 =>
      -- if config.UserAgent == "" { config.UserAgent = rest.DefaultKubernetesUserAgent() }
      match loadConfig w1 config with
      | none => none
      | some c1 =>
      match (if c1.UserAgent = "" then
               storeConfig w1 config { c1 with UserAgent := env.DefaultKubernetesUserAgent }
             else some w1) with
      | none => none
      | some w2 =>
      -- if config.GroupVersion == nil || config.GroupVersion.Group != "kubedb.com" { ... }
      match loadConfig w2 config with
      | none => none
      | some c2 =>
      match groupVersionMissing w2 c2 with
      | none => none
      | some missing =>
      let block : Option (World × Option GoError) :=
        if missing then
          match env.Group "kubedb.com" with
          | (_, some err) => some (w2, some err)
          | (none, none) => none
          | (some g, none) =>
            -- copyGroupVersion := g.GroupVersion; config.GroupVersion = &copyGroupVersion
            let (q, w3) := allocGroupVersion w2 g.GroupVersion
            match storeConfig w3 config { c2 with GroupVersion := q } with
            | none => none
            | some w4 => some (w4, none)
        else some (w2, none)
      match block with
      | none => none
      | some (w5, some err) => some (w5, some err)
      | some (w5, none) =>
      -- config.NegotiatedSerializer = DirectCodecFactory{extendedCodec: ExtendedCodec}
      match loadConfig w5 config with
      | none => none
      | some c5 =>
      let serializer : NegotiatedSerializer :=
        .directCodecFactory { extendedCodec := env.ExtendedCodec }
      match storeConfig w5 config { c5 with NegotiatedSerializer := some serializer } with
      | none => none
      | some w6 => some (w6, none)

/-- The function `NewForConfig`.  The result is the store after the call, the
returned `*ExtensionClient` and the returned error; `none` is a panic. -/
def NewForConfig (env : Env) (c : Ptr) (w : World) :
    Option (World × Option ExtensionClient × Option GoError) :=
  -- config := *c
  match loadConfig w c with
  | none => none
  | some cv =>
  let (config, w0) := allocConfig w cv
  match setExtensionsDefaults env config w0 with
  | none => none
  | some (w1, some err) => some (w1, none, some err)
  | some (w1, none) =>
  -- client, err := rest.RESTClientFor(&config)
  let w2 : World := { w1 with restClientForCalls := w1.restClientForCalls ++ [config] }
  match env.RESTClientFor w1 config with
  | (_, some err) => some (w2, none, some err)
  | (client, none) => some (w2, some { restClient := client }, none)

/-- The function `New`. -/
def New (c : Option Handle) : Option ExtensionClient :=
  some { restClient := c }

/-- The method `(*ExtensionClient).RESTClient`; the receiver may be nil. -/
def ExtensionClient.RESTClient (c : Option ExtensionClient) : Option Handle :=
  match c with
  | none => none
  | some cl => cl.restClient

/-! ## The configuration written by `setExtensionsDefaults`, field by field -/

/-- The configuration after the assignments of lines 90 to 93. -/
def withPathAndAgent (env : Env) (c : Config) : Config :=
  { c with
    APIPath := defaultAPIPath
    UserAgent := if c.UserAgent = "" then env.DefaultKubernetesUserAgent else c.UserAgent }

/-- The configuration after the assignment of line 104. -/
def withSerializer (env : Env) (c : Config) : Config :=
  { c with
    NegotiatedSerializer := some (.directCodecFactory { extendedCodec := env.ExtendedCodec }) }

/-! ## Sample inputs -/

/-- A registry in which `kubedb.com/v1alpha1` is enabled and registered, and a
transport constructor that succeeds. -/
def envOk : Env where
  ParseGroupVersion := fun _ => (⟨"kubedb.com", "v1alpha1"⟩, none)
  IsEnabledVersion := fun gv => gv == ⟨"kubedb.com", "v1alpha1"⟩
  Group := fun g =>
    if g = "kubedb.com" then (some ⟨⟨"kubedb.com", "v1alpha1"⟩⟩, none)
    else (none, some (Errorf "no version is registered for group"))
  DefaultKubernetesUserAgent := "kubectl/v1.5 (linux/amd64) kubernetes/unknown"
  ExtendedCodec := ⟨7⟩
  RESTClientFor := fun _ _ => (some ⟨42⟩, none)

/-- As `envOk`, with no version enabled. -/
def envDisabled : Env := { envOk with IsEnabledVersion := fun _ => false }

/-- As `envOk`, with a transport constructor that fails. -/
def envNoTransport : Env :=
  { envOk with RESTClientFor := fun _ _ => (none, some (Errorf "host must be a URL or a host:port pair")) }

/-- The configuration `{host: "https://x", groupVersion: nil}`. -/
def cfgBare : Config :=
  { Host := "https://x", BearerToken := "", APIPath := "", UserAgent := "",
    GroupVersion := none, NegotiatedSerializer := none }

/-- A store holding `cfgBare` alone. -/
def worldBare : World :=
  { configs := [cfgBare], groupVersions := [], restClientForCalls := [] }

/-- A configuration that names its own API path, user agent and serializer and
points at the group/version in cell 0. -/
def cfgFull : Config :=
  { Host := "https://x", BearerToken := "t", APIPath := "/api", UserAgent := "me/1.0",
    GroupVersion := some 0, NegotiatedSerializer := some (.other 3) }

/-- A store holding `cfgFull` pointing at `apps/v1`. -/
def worldApps : World :=
  { configs := [cfgFull], groupVersions := [⟨"apps", "v1"⟩], restClientForCalls := [] }

/-- A store holding `cfgFull` pointing at `kubedb.com/v1beta9`. -/
def worldBeta : World :=
  { configs := [cfgFull], groupVersions := [⟨"kubedb.com", "v1beta9"⟩], restClientForCalls := [] }

/-! ## Store lemmas -/

theorem loadConfig_some (w : World) (p : Nat) : loadConfig w (some p) = w.configs[p]? := rfl

theorem loadGroupVersion_some (w : World) (q : Nat) :
    loadGroupVersion w (some q) = w.groupVersions[q]? := rfl

theorem lt_of_getElem?_eq_some {α : Type} {l : List α} {p : Nat} {a : α}
    (h : l[p]? = some a) : p < l.length := by
  rcases List.getElem?_eq_some.1 h with ⟨hlt, _⟩
  exact hlt

theorem loadConfig_eq_some {w : World} {c : Ptr} {cfg : Config}
    (h : loadConfig w c = some cfg) : ∃ p, c = some p ∧ w.configs[p]? = some cfg := by
  cases c with
  | none => simp [loadConfig] at h
  | some p => exact ⟨p, rfl, h⟩

theorem append_singleton_ne {α : Type} (l : List α) (a : α) : l ++ [a] ≠ l := by
  intro h
  have hlen := congrArg List.length h
  simp at hlen

/-- The test of line 95 reads the group/version cells and the pointer field only. -/
theorem groupVersionMissing_congr (w : World) (cfg : Config) (cs : List Config)
    (l : List Ptr) (c : Config) (hc : c.GroupVersion = cfg.GroupVersion) :
    groupVersionMissing ⟨cs, w.groupVersions, l⟩ c = groupVersionMissing w cfg := by
  simp [groupVersionMissing, loadGroupVersion, hc]

theorem groupVersionMissing_nil {w : World} {cfg : Config} (h : cfg.GroupVersion = none) :
    groupVersionMissing w cfg = some true := by
  simp [groupVersionMissing, h]

theorem groupVersionMissing_of_load {w : World} {cfg : Config} {q : Nat} {g : GroupVersion}
    (hq : cfg.GroupVersion = some q) (hg : loadGroupVersion w (some q) = some g) :
    groupVersionMissing w cfg = some (g.Group != "kubedb.com") := by
  simp [groupVersionMissing, hq, hg]

theorem groupVersionMissing_isSome {w : World} {cfg : Config}
    (h : ∀ q, cfg.GroupVersion = some q → q < w.groupVersions.length) :
    ∃ m, groupVersionMissing w cfg = some m := by
  cases hq : cfg.GroupVersion with
  | none => exact ⟨true, groupVersionMissing_nil hq⟩
  | some q =>
    have hlt := h q hq
    refine ⟨w.groupVersions[q].Group != "kubedb.com", groupVersionMissing_of_load hq ?_⟩
    simp [loadGroupVersion, hlt]

/-! ## Closed forms of `setExtensionsDefaults` -/

theorem setExtensionsDefaults_parse_error {env : Env} {gv : GroupVersion} {err : GoError}
    (c : Ptr) (w : World)
    (hparse : env.ParseGroupVersion "kubedb.com/v1alpha1" = (gv, some err)) :
    setExtensionsDefaults env c w = some (w, some err) := by
  simp [setExtensionsDefaults, hparse]

theorem setExtensionsDefaults_disabled {env : Env} {gv : GroupVersion} (c : Ptr) (w : World)
    (hparse : env.ParseGroupVersion "kubedb.com/v1alpha1" = (gv, none))
    (hdis : env.IsEnabledVersion gv = false) :
    setExtensionsDefaults env c w =
      some (w, some (Errorf "kubedb.com/v1alpha1 is not enabled")) := by
  simp [setExtensionsDefaults, hparse, hdis]

theorem setExtensionsDefaults_stuck {env : Env} {w : World} {p : Nat} {cfg : Config}
    {gv : GroupVersion}
    (hp : w.configs[p]? = some cfg)
    (hparse : env.ParseGroupVersion "kubedb.com/v1alpha1" = (gv, none))
    (hen : env.IsEnabledVersion gv = true)
    (hm : groupVersionMissing w cfg = none) :
    setExtensionsDefaults env (some p) w = none := by
  have hlt : p < w.configs.length := lt_of_getElem?_eq_some hp
  have hm1 : ∀ (cs : List Config) (l : List Ptr) (c : Config),
      c.GroupVersion = cfg.GroupVersion →
      groupVersionMissing ⟨cs, w.groupVersions, l⟩ c = none := by
    intro cs l c hc
    rw [← hm]
    exact groupVersionMissing_congr w cfg cs l c hc
  unfold setExtensionsDefaults
  by_cases hua : cfg.UserAgent = "" <;>
    simp [hparse, hen, loadConfig_some, hp, storeConfig, hlt, hua, hm1]

theorem setExtensionsDefaults_enabled {env : Env} {w : World} {p : Nat} {cfg : Config}
    {gv : GroupVersion} {m : Bool}
    (hp : w.configs[p]? = some cfg)
    (hparse : env.ParseGroupVersion "kubedb.com/v1alpha1" = (gv, none))
    (hen : env.IsEnabledVersion gv = true)
    (hm : groupVersionMissing w cfg = some m) :
    setExtensionsDefaults env (some p) w =
      if m then
        match env.Group "kubedb.com" with
        | (_, some err) =>
          some ({ w with configs := w.configs.set p (withPathAndAgent env cfg) }, some err)
        | (none, none) => none
        | (some g, none) =>
          some ({ w with
                  configs := w.configs.set p
                    (withSerializer env
                      { withPathAndAgent env cfg with GroupVersion := some w.groupVersions.length })
                  groupVersions := w.groupVersions ++ [g.GroupVersion] }, none)
      else
        some ({ w with configs := w.configs.set p (withSerializer env (withPathAndAgent env cfg)) },
              none) := by
  have hlt : p < w.configs.length := lt_of_getElem?_eq_some hp
  have hm1 : ∀ (cs : List Config) (l : List Ptr) (c : Config),
      c.GroupVersion = cfg.GroupVersion →
      groupVersionMissing ⟨cs, w.groupVersions, l⟩ c = some m := by
    intro cs l c hc
    rw [← hm]
    exact groupVersionMissing_congr w cfg cs l c hc
  unfold setExtensionsDefaults
  rcases hG : env.Group "kubedb.com" with ⟨_ | g, _ | err⟩ <;>
    by_cases hua : cfg.UserAgent = "" <;> cases m <;>
    simp [hparse, hen, loadConfig_some, hp, storeConfig, hlt, hua, hm1, allocGroupVersion,
      withPathAndAgent, withSerializer]

/-- What a successful run of `setExtensionsDefaults` has read and written. -/
theorem setExtensionsDefaults_ok_inv {env : Env} {w w' : World} {p : Nat} {cfg : Config}
    (hp : w.configs[p]? = some cfg)
    (hok : setExtensionsDefaults env (some p) w = some (w', none)) :
    ∃ gv m, env.ParseGroupVersion "kubedb.com/v1alpha1" = (gv, none) ∧
      env.IsEnabledVersion gv = true ∧ groupVersionMissing w cfg = some m ∧
      (m = true → ∃ G, env.Group "kubedb.com" = (some G, none) ∧
        w' = { w with
               configs := w.configs.set p
                 (withSerializer env
                   { withPathAndAgent env cfg with GroupVersion := some w.groupVersions.length })
               groupVersions := w.groupVersions ++ [G.GroupVersion] }) ∧
      (m = false →
        w' = { w with
               configs := w.configs.set p (withSerializer env (withPathAndAgent env cfg)) }) := by
  rcases hparse : env.ParseGroupVersion "kubedb.com/v1alpha1" with ⟨gv, _ | err⟩
  swap
  · rw [setExtensionsDefaults_parse_error (some p) w hparse] at hok
    simp at hok
  cases hen : env.IsEnabledVersion gv with
  | false =>
    rw [setExtensionsDefaults_disabled (some p) w hparse hen] at hok
    simp at hok
  | true =>
    cases hm : groupVersionMissing w cfg with
    | none =>
      rw [setExtensionsDefaults_stuck hp hparse hen hm] at hok
      simp at hok
    | some m =>
      rw [setExtensionsDefaults_enabled hp hparse hen hm] at hok
      refine ⟨gv, m, rfl, hen, rfl, ?_, ?_⟩
      · intro hmt
        subst hmt
        rcases hG : env.Group "kubedb.com" with ⟨_ | G, _ | err⟩ <;> simp [hG] at hok
        exact ⟨G, rfl, hok.symm⟩
      · intro hmf
        subst hmf
        simp at hok
        exact hok.symm

/-- Whatever `setExtensionsDefaults` returns, it has written cell `p` of the
configurations at most, has only added group/version cells, and has called no
transport constructor. -/
theorem setExtensionsDefaults_frame {env : Env} {w w1 : World} {p : Nat} {cfg : Config}
    {e : Option GoError}
    (hp : w.configs[p]? = some cfg)
    (hres : setExtensionsDefaults env (some p) w = some (w1, e)) :
    ∃ x gvs, w1.configs = w.configs.set p x ∧ w1.groupVersions = w.groupVersions ++ gvs ∧
      w1.restClientForCalls = w.restClientForCalls := by
  have hlt : p < w.configs.length := lt_of_getElem?_eq_some hp
  have hsame : w.configs = w.configs.set p cfg := by
    apply List.ext_getElem?
    intro i
    by_cases hi : p = i
    · subst hi
      simp [hlt, hp]
    · simp [List.getElem?_set_ne hi]
  rcases hparse : env.ParseGroupVersion "kubedb.com/v1alpha1" with ⟨gv, _ | err⟩
  swap
  · rw [setExtensionsDefaults_parse_error (some p) w hparse] at hres
    simp at hres
    exact ⟨cfg, [], by rw [← hres.1]; exact hsame, by simp [← hres.1], by rw [← hres.1]⟩
  cases hen : env.IsEnabledVersion gv with
  | false =>
    rw [setExtensionsDefaults_disabled (some p) w hparse hen] at hres
    simp at hres
    exact ⟨cfg, [], by rw [← hres.1]; exact hsame, by simp [← hres.1], by rw [← hres.1]⟩
  | true =>
    cases hm : groupVersionMissing w cfg with
    | none =>
      rw [setExtensionsDefaults_stuck hp hparse hen hm] at hres
      simp at hres
    | some m =>
      rw [setExtensionsDefaults_enabled hp hparse hen hm] at hres
      cases m with
      | false =>
        simp at hres
        exact ⟨_, [], by rw [← hres.1], by simp [← hres.1], by rw [← hres.1]⟩
      | true =>
        rcases hG : env.Group "kubedb.com" with ⟨_ | G, _ | err⟩ <;> simp [hG] at hres
        · exact ⟨_, [], by rw [← hres.1], by simp [← hres.1], by rw [← hres.1]⟩
        · exact ⟨_, [G.GroupVersion], by rw [← hres.1], by rw [← hres.1], by rw [← hres.1]⟩
        · exact ⟨_, [], by rw [← hres.1], by simp [← hres.1], by rw [← hres.1]⟩

/-- The body of `NewForConfig` once `*c` has been read. -/
theorem NewForConfig_some {env : Env} {w : World} {p : Nat} {cv : Config}
    (hp : w.configs[p]? = some cv) :
    NewForConfig env (some p) w =
      match setExtensionsDefaults env (allocConfig w cv).1 (allocConfig w cv).2 with
      | none => none
      | some (w1, some err) => some (w1, none, some err)
      | some (w1, none) =>
        match env.RESTClientFor w1 (allocConfig w cv).1 with
        | (_, some err) =>
          some ({ w1 with
                  restClientForCalls := w1.restClientForCalls ++ [(allocConfig w cv).1] },
                none, some err)
        | (client, none) =>
          some ({ w1 with
                  restClientForCalls := w1.restClientForCalls ++ [(allocConfig w cv).1] },
                some { restClient := client }, none) := by
  simp [NewForConfig, loadConfig, hp]

theorem allocConfig_fst (w : World) (cv : Config) :
    (allocConfig w cv).1 = some w.configs.length := rfl

theorem allocConfig_load (w : World) (cv : Config) :
    (allocConfig w cv).2.configs[w.configs.length]? = some cv := by
  simp [allocConfig]

/-- The store after any returning call of `NewForConfig` is the store before it
with one configuration cell added (the copy) and group/version cells added. -/
theorem NewForConfig_frame {env : Env} {w w' : World} {p : Nat} {cv : Config}
    {cl : Option ExtensionClient} {e : Option GoError}
    (hp : w.configs[p]? = some cv)
    (hres : NewForConfig env (some p) w = some (w', cl, e)) :
    ∃ x gvs, w'.configs = w.configs ++ [x] ∧ w'.groupVersions = w.groupVersions ++ gvs := by
  rw [NewForConfig_some hp] at hres
  rcases hd : setExtensionsDefaults env (allocConfig w cv).1 (allocConfig w cv).2
    with _ | ⟨w1, e1⟩
  · simp [hd] at hres
  · rw [allocConfig_fst] at hd
    obtain ⟨x, gvs, h1, h2, _⟩ := setExtensionsDefaults_frame (allocConfig_load w cv) hd
    have h1a : w1.configs = w.configs ++ [x] := by
      rw [h1]
      simp [allocConfig]
    have h2a : w1.groupVersions = w.groupVersions ++ gvs := by
      rw [h2]
      simp [allocConfig]
    rw [← allocConfig_fst w cv] at hd
    cases e1 with
    | some err =>
      simp [hd] at hres
      exact ⟨x, gvs, by rw [← hres.1]; exact h1a, by rw [← hres.1]; exact h2a⟩
    | none =>
      rcases hr : env.RESTClientFor w1 (allocConfig w cv).1 with ⟨client, _ | err⟩ <;>
        simp [hd, hr] at hres <;>
        exact ⟨x, gvs, by rw [← hres.1]; exact h1a, by rw [← hres.1]; exact h2a⟩

/-- On a well-formed store `setExtensionsDefaults` returns, unless the registry
hands back a nil `*GroupMeta` together with a nil error. -/
theorem setExtensionsDefaults_returns {env : Env} {w : World} {p : Nat} {cfg : Config}
    (hp : w.configs[p]? = some cfg)
    (hgv : ∀ q, cfg.GroupVersion = some q → q < w.groupVersions.length)
    (hreg : env.Group "kubedb.com" ≠ (none, none)) :
    ∃ w1 e, setExtensionsDefaults env (some p) w = some (w1, e) := by
  rcases hparse : env.ParseGroupVersion "kubedb.com/v1alpha1" with ⟨gv, _ | err⟩
  swap
  · exact ⟨_, _, setExtensionsDefaults_parse_error (some p) w hparse⟩
  cases hen : env.IsEnabledVersion gv with
  | false => exact ⟨_, _, setExtensionsDefaults_disabled (some p) w hparse hen⟩
  | true =>
    obtain ⟨m, hm⟩ := groupVersionMissing_isSome hgv
    rw [setExtensionsDefaults_enabled hp hparse hen hm]
    cases m with
    | false => simp
    | true =>
      rcases hG : env.Group "kubedb.com" with ⟨_ | G, _ | err⟩
      · exact absurd hG hreg
      · simp
      · simp
      · simp

/-! ## The claims -/

/-- C1: when the group/version parsed from "kubedb.com/v1alpha1" is not enabled
in the registry, `NewForConfig` returns, for every configuration it is given,
a nil client and the error "kubedb.com/v1alpha1 is not enabled", and the log of
calls to `rest.RESTClientFor` is what it was before the call. -/
theorem NewForConfig_disabled_version (env : Env) (w : World) (c : Ptr) (cv : Config)
    (gv : GroupVersion)
    (hc : loadConfig w c = some cv)
    (hparse : env.ParseGroupVersion "kubedb.com/v1alpha1" = (gv, none))
    (hdis : env.IsEnabledVersion gv = false) :
    ∃ w', NewForConfig env c w =
        some (w', none, some (Errorf "kubedb.com/v1alpha1 is not enabled")) ∧
      w'.restClientForCalls = w.restClientForCalls := by
  obtain ⟨p, rfl, hp⟩ := loadConfig_eq_some hc
  refine ⟨(allocConfig w cv).2, ?_, rfl⟩
  rw [NewForConfig_some hp, setExtensionsDefaults_disabled _ _ hparse hdis]

theorem NewForConfig_disabled_version_witness :
    loadConfig worldBare (some 0) = some cfgBare ∧
    envDisabled.ParseGroupVersion "kubedb.com/v1alpha1" = (⟨"kubedb.com", "v1alpha1"⟩, none) ∧
    envDisabled.IsEnabledVersion ⟨"kubedb.com", "v1alpha1"⟩ = false ∧
    ∃ w', NewForConfig envDisabled (some 0) worldBare =
        some (w', none, some (Errorf "kubedb.com/v1alpha1 is not enabled")) ∧
      w'.restClientForCalls = worldBare.restClientForCalls :=
  ⟨rfl, rfl, rfl,
    NewForConfig_disabled_version envDisabled worldBare (some 0) cfgBare
      ⟨"kubedb.com", "v1alpha1"⟩ rfl rfl rfl⟩

/-- C2: every returning call of `NewForConfig`, whatever it returns, leaves the
caller's configuration cell and the group/version cell it points to as they
were: the store afterwards is the store before with fresh cells appended (the
internal copy, and the group/version written into it).  The call does return
unless the registry answers with a nil group and a nil error. -/
theorem NewForConfig_leaves_caller_config (env : Env) (w : World) (c : Ptr) (cv : Config)
    (hc : loadConfig w c = some cv)
    (hgv : ∀ q, cv.GroupVersion = some q → q < w.groupVersions.length) :
    (∀ w' cl e, NewForConfig env c w = some (w', cl, e) →
      loadConfig w' c = some cv ∧
      (∀ q, cv.GroupVersion = some q →
        loadGroupVersion w' (some q) = loadGroupVersion w (some q)) ∧
      ∃ x gvs, w'.configs = w.configs ++ [x] ∧ w'.groupVersions = w.groupVersions ++ gvs) ∧
    (env.Group "kubedb.com" ≠ (none, none) →
      ∃ w' cl e, NewForConfig env c w = some (w', cl, e)) := by
  obtain ⟨p, rfl, hp⟩ := loadConfig_eq_some hc
  have hlt : p < w.configs.length := lt_of_getElem?_eq_some hp
  constructor
  · intro w' cl e hres
    obtain ⟨x, gvs, h1, h2⟩ := NewForConfig_frame hp hres
    refine ⟨?_, ?_, x, gvs, h1, h2⟩
    · rw [loadConfig_some, h1, List.getElem?_append_left hlt]
      exact hp
    · intro q hq
      rw [loadGroupVersion_some, loadGroupVersion_some, h2,
        List.getElem?_append_left (hgv q hq)]
  · intro hreg
    have hgv0 : ∀ q, cv.GroupVersion = some q →
        q < (allocConfig w cv).2.groupVersions.length := hgv
    obtain ⟨w1, e1, hd⟩ :=
      setExtensionsDefaults_returns (allocConfig_load w cv) hgv0 hreg
    rw [NewForConfig_some hp, allocConfig_fst, hd]
    cases e1 with
    | some err => simp
    | none =>
      rcases hr : env.RESTClientFor w1 (some w.configs.length) with ⟨client, _ | err⟩ <;>
        simp [hr]

theorem NewForConfig_leaves_caller_config_witness :
    loadConfig worldApps (some 0) = some cfgFull ∧
    (∀ q, cfgFull.GroupVersion = some q → q < worldApps.groupVersions.length) ∧
    (∀ w' cl e, NewForConfig envOk (some 0) worldApps = some (w', cl, e) →
      loadConfig w' (some 0) = some cfgFull ∧
      (∀ q, cfgFull.GroupVersion = some q →
        loadGroupVersion w' (some q) = loadGroupVersion worldApps (some q)) ∧
      ∃ x gvs, w'.configs = worldApps.configs ++ [x] ∧
        w'.groupVersions = worldApps.groupVersions ++ gvs) ∧
    (envOk.Group "kubedb.com" ≠ (none, none) →
      ∃ w' cl e, NewForConfig envOk (some 0) worldApps = some (w', cl, e)) :=
  have hgv : ∀ q, cfgFull.GroupVersion = some q → q < worldApps.groupVersions.length := by
    intro q hq
    simp [cfgFull] at hq
    simp [worldApps, ← hq]
  ⟨rfl, hgv, NewForConfig_leaves_caller_config envOk worldApps (some 0) cfgFull rfl hgv⟩

/-- C3, refuted as stated: a configuration whose group/version is present and
is `apps/v1`, not `kubedb.com/v1alpha1`, does not make `NewForConfig` fail
before the transport constructor: a client comes back with a nil error and
`rest.RESTClientFor` has been called once.  The same holds for
`kubedb.com/v1beta9`, which differs in the version only. -/
theorem NewForConfig_mismatch_counterexample :
    (loadConfig worldApps (some 0) = some cfgFull ∧ cfgFull.GroupVersion = some 0 ∧
      loadGroupVersion worldApps (some 0) = some ⟨"apps", "v1"⟩ ∧
      (⟨"apps", "v1"⟩ : GroupVersion) ≠ ⟨"kubedb.com", "v1alpha1"⟩ ∧
      ¬ ∃ w' e, NewForConfig envOk (some 0) worldApps = some (w', none, some e) ∧
          w'.restClientForCalls = worldApps.restClientForCalls) ∧
    (loadGroupVersion worldBeta (some 0) = some ⟨"kubedb.com", "v1beta9"⟩ ∧
      (⟨"kubedb.com", "v1beta9"⟩ : GroupVersion) ≠ ⟨"kubedb.com", "v1alpha1"⟩ ∧
      ¬ ∃ w' e, NewForConfig envOk (some 0) worldBeta = some (w', none, some e) ∧
          w'.restClientForCalls = worldBeta.restClientForCalls) := by
  have hApps : NewForConfig envOk (some 0) worldApps =
      some ({ configs := [cfgFull,
                withSerializer envOk
                  { withPathAndAgent envOk cfgFull with GroupVersion := some 1 }],
              groupVersions := [⟨"apps", "v1"⟩, ⟨"kubedb.com", "v1alpha1"⟩],
              restClientForCalls := [some 1] }, some ⟨some ⟨42⟩⟩, none) := by rfl
  have hBeta : NewForConfig envOk (some 0) worldBeta =
      some ({ configs := [cfgFull, withSerializer envOk (withPathAndAgent envOk cfgFull)],
              groupVersions := [⟨"kubedb.com", "v1beta9"⟩],
              restClientForCalls := [some 1] }, some ⟨some ⟨42⟩⟩, none) := by rfl
  refine ⟨⟨rfl, rfl, rfl, by decide, ?_⟩, rfl, by decide, ?_⟩
  · rintro ⟨w', e, h, _⟩
    rw [hApps] at h
    simp at h
  · rintro ⟨w', e, h, _⟩
    rw [hBeta] at h
    simp at h

/-- C3, amended: for a configuration whose group/version is present, whether it
matches or not, `NewForConfig` returns an error without having called the
transport constructor exactly when the version is not enabled, or the group is
not "kubedb.com" and the registry lookup of "kubedb.com" returns an error.  A
mismatch alone never makes construction fail. -/
theorem NewForConfig_fails_early_iff (env : Env) (w : World) (c : Ptr) (cv : Config)
    (q : Nat) (g gv : GroupVersion)
    (hc : loadConfig w c = some cv)
    (hq : cv.GroupVersion = some q)
    (hg : loadGroupVersion w (some q) = some g)
    (hparse : env.ParseGroupVersion "kubedb.com/v1alpha1" = (gv, none)) :
    (∃ w' e, NewForConfig env c w = some (w', none, some e) ∧
        w'.restClientForCalls = w.restClientForCalls) ↔
      (env.IsEnabledVersion gv = false ∨
        (g.Group ≠ "kubedb.com" ∧ ∃ e, (env.Group "kubedb.com").2 = some e)) := by
  obtain ⟨p, rfl, hp⟩ := loadConfig_eq_some hc
  have hm0 : groupVersionMissing (allocConfig w cv).2 cv = some (g.Group != "kubedb.com") :=
    groupVersionMissing_of_load hq hg
  rw [NewForConfig_some hp, allocConfig_fst]
  cases hen : env.IsEnabledVersion gv with
  | false =>
    rw [setExtensionsDefaults_disabled _ _ hparse hen]
    simp [allocConfig]
  | true =>
    rw [setExtensionsDefaults_enabled (allocConfig_load w cv) hparse hen hm0]
    by_cases hgrp : g.Group = "kubedb.com"
    · simp only [hgrp, bne_self_eq_false, Bool.false_eq_true, if_false]
      generalize env.RESTClientFor _ _ = r
      rcases r with ⟨client, _ | err⟩ <;> simp [hen, allocConfig, append_singleton_ne]
    · rcases hG : env.Group "kubedb.com" with ⟨_ | G, _ | err⟩
      · simp [hgrp]
      · simp [hgrp, allocConfig]
      · have hb : (g.Group != "kubedb.com") = true := by simp [hgrp]
        simp only [hb, if_true]
        generalize env.RESTClientFor _ _ = r
        rcases r with ⟨client, _ | err⟩ <;> simp [hgrp, allocConfig, append_singleton_ne]
      · simp [hgrp, allocConfig]

theorem NewForConfig_fails_early_iff_witness :
    loadConfig worldApps (some 0) = some cfgFull ∧ cfgFull.GroupVersion = some 0 ∧
    loadGroupVersion worldApps (some 0) = some ⟨"apps", "v1"⟩ ∧
    envOk.ParseGroupVersion "kubedb.com/v1alpha1" = (⟨"kubedb.com", "v1alpha1"⟩, none) ∧
    ((∃ w' e, NewForConfig envOk (some 0) worldApps = some (w', none, some e) ∧
        w'.restClientForCalls = worldApps.restClientForCalls) ↔
      (envOk.IsEnabledVersion ⟨"kubedb.com", "v1alpha1"⟩ = false ∨
        ((⟨"apps", "v1"⟩ : GroupVersion).Group ≠ "kubedb.com" ∧
          ∃ e, (envOk.Group "kubedb.com").2 = some e))) :=
  ⟨rfl, rfl, rfl, rfl,
    NewForConfig_fails_early_iff envOk worldApps (some 0) cfgFull 0 ⟨"apps", "v1"⟩
      ⟨"kubedb.com", "v1alpha1"⟩ rfl rfl rfl rfl⟩

/-- C4: when the configuration's group/version is present with a group other
than "kubedb.com", the version is enabled and the registry lookup of
"kubedb.com" succeeds with `G`, `setExtensionsDefaults` returns a nil error and
the configuration's group/version pointer afterwards points at a cell holding
`G.GroupVersion`. -/
theorem setExtensionsDefaults_overwrites_other_group (env : Env) (w : World) (c : Ptr)
    (cfg : Config) (q : Nat) (g gv : GroupVersion) (G : GroupMeta)
    (hc : loadConfig w c = some cfg)
    (hq : cfg.GroupVersion = some q)
    (hg : loadGroupVersion w (some q) = some g)
    (hne : g.Group ≠ "kubedb.com")
    (hparse : env.ParseGroupVersion "kubedb.com/v1alpha1" = (gv, none))
    (hen : env.IsEnabledVersion gv = true)
    (hG : env.Group "kubedb.com" = (some G, none)) :
    ∃ w' cfg' q', setExtensionsDefaults env c w = some (w', none) ∧
      loadConfig w' c = some cfg' ∧ cfg'.GroupVersion = some q' ∧
      loadGroupVersion w' (some q') = some G.GroupVersion := by
  obtain ⟨p, rfl, hp⟩ := loadConfig_eq_some hc
  have hlt : p < w.configs.length := lt_of_getElem?_eq_some hp
  have hm : groupVersionMissing w cfg = some true := by
    rw [groupVersionMissing_of_load hq hg]
    simp [hne]
  rw [setExtensionsDefaults_enabled hp hparse hen hm]
  simp only [hG, if_true]
  refine ⟨_, withSerializer env
      { withPathAndAgent env cfg with GroupVersion := some w.groupVersions.length },
    w.groupVersions.length, rfl, ?_, rfl, ?_⟩
  · simp [loadConfig, hlt]
  · simp [loadGroupVersion]

theorem setExtensionsDefaults_overwrites_other_group_witness :
    loadConfig worldApps (some 0) = some cfgFull ∧ cfgFull.GroupVersion = some 0 ∧
    loadGroupVersion worldApps (some 0) = some ⟨"apps", "v1"⟩ ∧
    (⟨"apps", "v1"⟩ : GroupVersion).Group ≠ "kubedb.com" ∧
    envOk.ParseGroupVersion "kubedb.com/v1alpha1" = (⟨"kubedb.com", "v1alpha1"⟩, none) ∧
    envOk.IsEnabledVersion ⟨"kubedb.com", "v1alpha1"⟩ = true ∧
    envOk.Group "kubedb.com" = (some ⟨⟨"kubedb.com", "v1alpha1"⟩⟩, none) ∧
    ∃ w' cfg' q', setExtensionsDefaults envOk (some 0) worldApps = some (w', none) ∧
      loadConfig w' (some 0) = some cfg' ∧ cfg'.GroupVersion = some q' ∧
      loadGroupVersion w' (some q') = some ⟨"kubedb.com", "v1alpha1"⟩ :=
  ⟨rfl, rfl, rfl, by decide, rfl, rfl, rfl,
    setExtensionsDefaults_overwrites_other_group envOk worldApps (some 0) cfgFull 0
      ⟨"apps", "v1"⟩ ⟨"kubedb.com", "v1alpha1"⟩ ⟨⟨"kubedb.com", "v1alpha1"⟩⟩
      rfl rfl rfl (by decide) rfl rfl rfl⟩

/-- C5, refuted as stated: on a configuration whose group/version is
`kubedb.com/v1beta9`, which differs from the canonical `kubedb.com/v1alpha1`
in its version, defaulting succeeds and the configuration's group/version is
still `kubedb.com/v1beta9`, not the canonical one. -/
theorem setExtensionsDefaults_version_counterexample :
    loadConfig worldBeta (some 0) = some cfgFull ∧ cfgFull.GroupVersion = some 0 ∧
    loadGroupVersion worldBeta (some 0) = some ⟨"kubedb.com", "v1beta9"⟩ ∧
    envOk.Group "kubedb.com" = (some ⟨⟨"kubedb.com", "v1alpha1"⟩⟩, none) ∧
    (⟨"kubedb.com", "v1beta9"⟩ : GroupVersion) ≠ ⟨"kubedb.com", "v1alpha1"⟩ ∧
    ∃ w' cfg', setExtensionsDefaults envOk (some 0) worldBeta = some (w', none) ∧
      loadConfig w' (some 0) = some cfg' ∧
      loadGroupVersion w' cfg'.GroupVersion = some ⟨"kubedb.com", "v1beta9"⟩ ∧
      loadGroupVersion w' cfg'.GroupVersion ≠ some ⟨"kubedb.com", "v1alpha1"⟩ :=
  ⟨rfl, rfl, rfl, rfl, by decide,
    { configs := [withSerializer envOk (withPathAndAgent envOk cfgFull)],
      groupVersions := [⟨"kubedb.com", "v1beta9"⟩],
      restClientForCalls := [] },
    withSerializer envOk (withPathAndAgent envOk cfgFull), rfl, rfl, rfl, by decide⟩

/-- C5, amended: after a successful `setExtensionsDefaults` the configuration's
group/version pointer is non-nil; when the group/version was unset or had a
group other than "kubedb.com" it points at a fresh cell holding the canonical
group/version the registry returned for "kubedb.com"; when the group was
"kubedb.com" the pointer and the cell it points at are as before, whatever the
version. -/
theorem setExtensionsDefaults_groupVersion (env : Env) (w w' : World) (c : Ptr)
    (cfg : Config)
    (hc : loadConfig w c = some cfg)
    (hok : setExtensionsDefaults env c w = some (w', none)) :
    ∃ cfg' q', loadConfig w' c = some cfg' ∧ cfg'.GroupVersion = some q' ∧
      ((cfg.GroupVersion = none ∨
          ∃ q g, cfg.GroupVersion = some q ∧ loadGroupVersion w (some q) = some g ∧
            g.Group ≠ "kubedb.com") →
        ∃ G, env.Group "kubedb.com" = (some G, none) ∧
          loadGroupVersion w' (some q') = some G.GroupVersion) ∧
      (∀ q g, cfg.GroupVersion = some q → loadGroupVersion w (some q) = some g →
        g.Group = "kubedb.com" → q' = q ∧ loadGroupVersion w' (some q') = some g) := by
  obtain ⟨p, rfl, hp⟩ := loadConfig_eq_some hc
  have hlt : p < w.configs.length := lt_of_getElem?_eq_some hp
  obtain ⟨gv, m, -, -, hm, hT, hF⟩ := setExtensionsDefaults_ok_inv hp hok
  cases m with
  | true =>
    obtain ⟨G, hG, hw⟩ := hT rfl
    subst hw
    refine ⟨withSerializer env
        { withPathAndAgent env cfg with GroupVersion := some w.groupVersions.length },
      w.groupVersions.length, ?_, rfl, ?_, ?_⟩
    · simp [loadConfig, hlt]
    · intro _
      exact ⟨G, hG, by simp [loadGroupVersion]⟩
    · intro q g hq hg hgrp
      rw [groupVersionMissing_of_load hq hg] at hm
      simp [hgrp] at hm
  | false =>
    have hw := hF rfl
    subst hw
    cases hq0 : cfg.GroupVersion with
    | none =>
      rw [groupVersionMissing_nil hq0] at hm
      simp at hm
    | some q0 =>
      refine ⟨withSerializer env (withPathAndAgent env cfg), q0, ?_, hq0, ?_, ?_⟩
      · simp [loadConfig, hlt]
      · rintro (h | ⟨q, g, hq, hg, hne⟩)
        · simp at h
        · have hqq : q0 = q := Option.some.inj hq
          subst hqq
          rw [groupVersionMissing_of_load hq0 hg] at hm
          simp [hne] at hm
      · intro q g hq hg _
        have hqq : q0 = q := Option.some.inj hq
        subst hqq
        exact ⟨rfl, hg⟩

theorem setExtensionsDefaults_groupVersion_witness :
    loadConfig worldBeta (some 0) = some cfgFull ∧
    ∃ cfg' q', loadConfig
        { configs := [withSerializer envOk (withPathAndAgent envOk cfgFull)],
          groupVersions := [⟨"kubedb.com", "v1beta9"⟩],
          restClientForCalls := [] } (some 0) = some cfg' ∧ cfg'.GroupVersion = some q' ∧
      ((cfgFull.GroupVersion = none ∨
          ∃ q g, cfgFull.GroupVersion = some q ∧ loadGroupVersion worldBeta (some q) = some g ∧
            g.Group ≠ "kubedb.com") →
        ∃ G, envOk.Group "kubedb.com" = (some G, none) ∧
          loadGroupVersion
            { configs := [withSerializer envOk (withPathAndAgent envOk cfgFull)],
              groupVersions := [⟨"kubedb.com", "v1beta9"⟩],
              restClientForCalls := [] } (some q') = some G.GroupVersion) ∧
      (∀ q g, cfgFull.GroupVersion = some q → loadGroupVersion worldBeta (some q) = some g →
        g.Group = "kubedb.com" → q' = q ∧
          loadGroupVersion
            { configs := [withSerializer envOk (withPathAndAgent envOk cfgFull)],
              groupVersions := [⟨"kubedb.com", "v1beta9"⟩],
              restClientForCalls := [] } (some q') = some g) :=
  ⟨rfl, setExtensionsDefaults_groupVersion envOk worldBeta _ (some 0) cfgFull rfl rfl⟩

/-- C6: on a configuration with empty `APIPath`, empty `UserAgent` and nil
`GroupVersion`, when the version is enabled, the registry lookup of
"kubedb.com" succeeds with a group/version whose group is "kubedb.com" and the
default user agent is non-empty, `setExtensionsDefaults` returns a nil error
and afterwards `APIPath` is "/apis", `UserAgent` is non-empty, and
`GroupVersion` is non-nil and points at a group/version with group
"kubedb.com". -/
theorem setExtensionsDefaults_fills_missing (env : Env) (w : World) (c : Ptr)
    (cfg : Config) (gv : GroupVersion) (G : GroupMeta)
    (hc : loadConfig w c = some cfg)
    (_hpath : cfg.APIPath = "")
    (hagent : cfg.UserAgent = "")
    (hnil : cfg.GroupVersion = none)
    (hparse : env.ParseGroupVersion "kubedb.com/v1alpha1" = (gv, none))
    (hen : env.IsEnabledVersion gv = true)
    (hG : env.Group "kubedb.com" = (some G, none))
    (hGroup : G.GroupVersion.Group = "kubedb.com")
    (hdefault : env.DefaultKubernetesUserAgent ≠ "") :
    ∃ w' cfg' q g, setExtensionsDefaults env c w = some (w', none) ∧
      loadConfig w' c = some cfg' ∧ cfg'.APIPath = "/apis" ∧ cfg'.UserAgent ≠ "" ∧
      cfg'.GroupVersion = some q ∧ loadGroupVersion w' (some q) = some g ∧
      g.Group = "kubedb.com" := by
  obtain ⟨p, rfl, hp⟩ := loadConfig_eq_some hc
  have hlt : p < w.configs.length := lt_of_getElem?_eq_some hp
  rw [setExtensionsDefaults_enabled hp hparse hen (groupVersionMissing_nil hnil)]
  simp only [hG, if_true]
  refine ⟨_, withSerializer env
      { withPathAndAgent env cfg with GroupVersion := some w.groupVersions.length },
    w.groupVersions.length, G.GroupVersion, rfl, ?_, rfl, ?_, rfl, ?_, hGroup⟩
  · simp [loadConfig, hlt]
  · simpa [withSerializer, withPathAndAgent, hagent] using hdefault
  · simp [loadGroupVersion]

theorem setExtensionsDefaults_fills_missing_witness :
    loadConfig worldBare (some 0) = some cfgBare ∧ cfgBare.APIPath = "" ∧
    cfgBare.UserAgent = "" ∧ cfgBare.GroupVersion = none ∧
    envOk.ParseGroupVersion "kubedb.com/v1alpha1" = (⟨"kubedb.com", "v1alpha1"⟩, none) ∧
    envOk.IsEnabledVersion ⟨"kubedb.com", "v1alpha1"⟩ = true ∧
    envOk.Group "kubedb.com" = (some ⟨⟨"kubedb.com", "v1alpha1"⟩⟩, none) ∧
    envOk.DefaultKubernetesUserAgent ≠ "" ∧
    ∃ w' cfg' q g, setExtensionsDefaults envOk (some 0) worldBare = some (w', none) ∧
      loadConfig w' (some 0) = some cfg' ∧ cfg'.APIPath = "/apis" ∧ cfg'.UserAgent ≠ "" ∧
      cfg'.GroupVersion = some q ∧ loadGroupVersion w' (some q) = some g ∧
      g.Group = "kubedb.com" :=
  ⟨rfl, rfl, rfl, rfl, rfl, rfl, rfl, by decide,
    setExtensionsDefaults_fills_missing envOk worldBare (some 0) cfgBare
      ⟨"kubedb.com", "v1alpha1"⟩ ⟨⟨"kubedb.com", "v1alpha1"⟩⟩
      rfl rfl rfl rfl rfl rfl rfl rfl (by decide)⟩

/-- C7: after a successful `setExtensionsDefaults` the configuration's
`NegotiatedSerializer` is `DirectCodecFactory{extendedCodec: ExtendedCodec}`,
and the call gives the very same store and nil error when the serializer the
caller supplied is replaced by any other value, nil included. -/
theorem setExtensionsDefaults_serializer (env : Env) (w w' : World) (c : Ptr) (cfg : Config)
    (hc : loadConfig w c = some cfg)
    (hok : setExtensionsDefaults env c w = some (w', none)) :
    (∃ cfg', loadConfig w' c = some cfg' ∧
      cfg'.NegotiatedSerializer =
        some (.directCodecFactory { extendedCodec := env.ExtendedCodec })) ∧
    (∀ (s : Option NegotiatedSerializer) (ws : World),
      storeConfig w c { cfg with NegotiatedSerializer := s } = some ws →
      setExtensionsDefaults env c ws = some (w', none)) := by
  obtain ⟨p, rfl, hp⟩ := loadConfig_eq_some hc
  have hlt : p < w.configs.length := lt_of_getElem?_eq_some hp
  obtain ⟨gv, m, hparse, hen, hm, hT, hF⟩ := setExtensionsDefaults_ok_inv hp hok
  constructor
  · cases m with
    | true =>
      obtain ⟨G, -, hw⟩ := hT rfl
      subst hw
      exact ⟨withSerializer env
          { withPathAndAgent env cfg with GroupVersion := some w.groupVersions.length },
        by simp [loadConfig, hlt], rfl⟩
    | false =>
      have hw := hF rfl
      subst hw
      exact ⟨withSerializer env (withPathAndAgent env cfg), by simp [loadConfig, hlt], rfl⟩
  · intro s ws hws
    have hws1 : ws =
        { w with
          configs := w.configs.set p { cfg with NegotiatedSerializer := s } } := by
      simp [storeConfig, hlt] at hws
      exact hws.symm
    subst hws1
    have hps : (w.configs.set p { cfg with NegotiatedSerializer := s })[p]? =
        some { cfg with NegotiatedSerializer := s } := by
      simp [hlt]
    have hms : groupVersionMissing
        { w with
          configs := w.configs.set p { cfg with NegotiatedSerializer := s } }
        { cfg with NegotiatedSerializer := s } = some m := by
      rw [← hm]
      exact groupVersionMissing_congr w cfg _ _ _ rfl
    rw [setExtensionsDefaults_enabled hps hparse hen hms]
    cases m with
    | true =>
      obtain ⟨G, hG, hw⟩ := hT rfl
      subst hw
      simp [hG, withSerializer, withPathAndAgent]
    | false =>
      have hw := hF rfl
      subst hw
      simp [withSerializer, withPathAndAgent]

theorem setExtensionsDefaults_serializer_witness :
    loadConfig worldApps (some 0) = some cfgFull ∧
    (∃ cfg', loadConfig
        { configs := [withSerializer envOk
            { withPathAndAgent envOk cfgFull with GroupVersion := some 1 }],
          groupVersions := [⟨"apps", "v1"⟩, ⟨"kubedb.com", "v1alpha1"⟩],
          restClientForCalls := [] } (some 0) = some cfg' ∧
      cfg'.NegotiatedSerializer =
        some (.directCodecFactory { extendedCodec := envOk.ExtendedCodec })) ∧
    (∀ (s : Option NegotiatedSerializer) (ws : World),
      storeConfig worldApps (some 0) { cfgFull with NegotiatedSerializer := s } = some ws →
      setExtensionsDefaults envOk (some 0) ws =
        some ({ configs := [withSerializer envOk
                  { withPathAndAgent envOk cfgFull with GroupVersion := some 1 }],
                groupVersions := [⟨"apps", "v1"⟩, ⟨"kubedb.com", "v1alpha1"⟩],
                restClientForCalls := [] }, none)) :=
  ⟨rfl, setExtensionsDefaults_serializer envOk worldApps _ (some 0) cfgFull rfl rfl⟩

/-- C8: once defaulting has succeeded on the internal copy, an error `e` from
the transport constructor makes `NewForConfig` return a nil client and `e`
itself, and a nil error from it with handle `h` makes `NewForConfig` return a
nil error and a client whose `RESTClient()` is `h`.  Whatever `NewForConfig`
returns, the client is non-nil exactly when the error is nil. -/
theorem NewForConfig_transport_result (env : Env) (w : World) (c : Ptr) (cv : Config)
    (hc : loadConfig w c = some cv) :
    (∀ w1, setExtensionsDefaults env (allocConfig w cv).1 (allocConfig w cv).2 =
        some (w1, none) →
      (∀ x e, env.RESTClientFor w1 (allocConfig w cv).1 = (x, some e) →
        ∃ w', NewForConfig env c w = some (w', none, some e)) ∧
      (∀ h, env.RESTClientFor w1 (allocConfig w cv).1 = (h, none) →
        ∃ w' cl, NewForConfig env c w = some (w', some cl, none) ∧
          ExtensionClient.RESTClient (some cl) = h)) ∧
    (∀ w' cl e, NewForConfig env c w = some (w', cl, e) → (cl.isSome = true ↔ e = none)) := by
  obtain ⟨p, rfl, hp⟩ := loadConfig_eq_some hc
  rw [NewForConfig_some hp]
  constructor
  · intro w1 hd
    rw [hd]
    constructor
    · intro x e hr
      simp [hr]
    · intro h hr
      simp only [hr]
      exact ⟨_, { restClient := h }, rfl, rfl⟩
  · intro w' cl e hres
    rcases hd : setExtensionsDefaults env (allocConfig w cv).1 (allocConfig w cv).2
      with _ | ⟨w1, _ | err⟩
    · simp [hd] at hres
    · rw [hd] at hres
      simp only at hres
      generalize env.RESTClientFor _ _ = r at hres
      rcases r with ⟨client, _ | err⟩
      · simp at hres
        simp [← hres.2.1, ← hres.2.2]
      · simp at hres
        simp [← hres.2.1, ← hres.2.2]
    · simp [hd] at hres
      simp [← hres.2.1, ← hres.2.2]

theorem NewForConfig_transport_result_witness :
    loadConfig worldBare (some 0) = some cfgBare ∧
    (∃ w1, setExtensionsDefaults envOk (allocConfig worldBare cfgBare).1
        (allocConfig worldBare cfgBare).2 = some (w1, none)) ∧
    (∀ w1, setExtensionsDefaults envOk (allocConfig worldBare cfgBare).1
        (allocConfig worldBare cfgBare).2 = some (w1, none) →
      (∀ x e, envOk.RESTClientFor w1 (allocConfig worldBare cfgBare).1 = (x, some e) →
        ∃ w', NewForConfig envOk (some 0) worldBare = some (w', none, some e)) ∧
      (∀ h, envOk.RESTClientFor w1 (allocConfig worldBare cfgBare).1 = (h, none) →
        ∃ w' cl, NewForConfig envOk (some 0) worldBare = some (w', some cl, none) ∧
          ExtensionClient.RESTClient (some cl) = h)) ∧
    (∀ w' cl e, NewForConfig envOk (some 0) worldBare = some (w', cl, e) →
      (cl.isSome = true ↔ e = none)) :=
  ⟨rfl, ⟨_, rfl⟩, NewForConfig_transport_result envOk worldBare (some 0) cfgBare rfl⟩

/-- C9: `RESTClient()` on a nil `*ExtensionClient` returns a nil handle, and on
the client built by `New(h)`, which is never nil, it returns `h`. -/
theorem RESTClient_nil_and_New :
    ExtensionClient.RESTClient none = none ∧
    ∀ h : Option Handle, New h ≠ none ∧ ExtensionClient.RESTClient (New h) = h := by
  refine ⟨rfl, fun h => ⟨?_, rfl⟩⟩
  simp [New]

/-- C10: after a successful `setExtensionsDefaults` the configuration's
`APIPath` is "/apis" whatever it was before, a non-empty `UserAgent` is what it
was before, and an empty one has become the default user agent. -/
theorem setExtensionsDefaults_path_and_agent (env : Env) (w w' : World) (c : Ptr)
    (cfg : Config)
    (hc : loadConfig w c = some cfg)
    (hok : setExtensionsDefaults env c w = some (w', none)) :
    ∃ cfg', loadConfig w' c = some cfg' ∧ cfg'.APIPath = "/apis" ∧
      (cfg.UserAgent ≠ "" → cfg'.UserAgent = cfg.UserAgent) ∧
      (cfg.UserAgent = "" → cfg'.UserAgent = env.DefaultKubernetesUserAgent) := by
  obtain ⟨p, rfl, hp⟩ := loadConfig_eq_some hc
  have hlt : p < w.configs.length := lt_of_getElem?_eq_some hp
  obtain ⟨gv, m, -, -, -, hT, hF⟩ := setExtensionsDefaults_ok_inv hp hok
  cases m with
  | true =>
    obtain ⟨G, -, hw⟩ := hT rfl
    subst hw
    refine ⟨withSerializer env
        { withPathAndAgent env cfg with GroupVersion := some w.groupVersions.length },
      by simp [loadConfig, hlt], rfl, ?_, ?_⟩ <;>
      intro h <;> simp [withSerializer, withPathAndAgent, h]
  | false =>
    have hw := hF rfl
    subst hw
    refine ⟨withSerializer env (withPathAndAgent env cfg),
      by simp [loadConfig, hlt], rfl, ?_, ?_⟩ <;>
      intro h <;> simp [withSerializer, withPathAndAgent, h]

theorem setExtensionsDefaults_path_and_agent_witness :
    loadConfig worldBeta (some 0) = some cfgFull ∧ cfgFull.APIPath = "/api" ∧
    ∃ cfg', loadConfig
        { configs := [withSerializer envOk (withPathAndAgent envOk cfgFull)],
          groupVersions := [⟨"kubedb.com", "v1beta9"⟩],
          restClientForCalls := [] } (some 0) = some cfg' ∧ cfg'.APIPath = "/apis" ∧
      (cfgFull.UserAgent ≠ "" → cfg'.UserAgent = cfgFull.UserAgent) ∧
      (cfgFull.UserAgent = "" → cfg'.UserAgent = envOk.DefaultKubernetesUserAgent) :=
  ⟨rfl, rfl, setExtensionsDefaults_path_and_agent envOk worldBeta _ (some 0) cfgFull rfl rfl⟩

end Clientset
